import Mathlib

/-!
Verification of the custom rational-arithmetic type `Frac`, the point type
`FracPoint2` and the convex-hull predicate bundle (`Less_xy_2`, `Left_turn_2`,
`Equal_2`) implemented in `src/01-first-steps/part-vii.cpp`.

The C++ code stores numerator and denominator as `long long` (`using ll =
long long`); we embed `ll` as the mathematical integers `Int` (overflow is an
unchecked failure mode outside the operators' contract).  `std::gcd` on signed
integers returns the non-negative gcd of the absolute values, which is exactly
`Int.gcd` (cast to `Int`).  The C++ division `new_num /= new_gcd` truncates
toward zero, but the divisor is the gcd of the two operands and hence divides
both exactly, so every division convention (truncating, flooring, Euclidean)
produces the same quotient; we therefore use Lean's `/` on `Int`.
-/

/-- Embedding of the C++ class `Frac`: a numerator/denominator pair of
(`long long`) integers.  No invariant is enforced by the constructor. -/
structure Frac where
  num : Int
  den : Int
deriving DecidableEq

/-- `Frac::operator<`: `num() * other.den() < other.num() * den()`. -/
def Frac.lt (a b : Frac) : Bool :=
  decide (a.num * b.den < b.num * a.den)

/-- `Frac::operator<=`: `num() * other.den() <= other.num() * den()`. -/
def Frac.le (a b : Frac) : Bool :=
  decide (a.num * b.den ≤ b.num * a.den)

/-- `Frac::operator>`: `num() * other.den() > other.num() * den()`. -/
def Frac.gt (a b : Frac) : Bool :=
  decide (b.num * a.den < a.num * b.den)

/-- `Frac::operator>=`: `num() * other.den() >= other.num() * den()`. -/
def Frac.ge (a b : Frac) : Bool :=
  decide (b.num * a.den ≤ a.num * b.den)

/-- `Frac::operator==`: `num() * other.den() == other.num() * den()`. -/
def Frac.beq (a b : Frac) : Bool :=
  decide (a.num * b.den = b.num * a.den)

/-- The gcd-reduction tail shared verbatim by the four arithmetic operators of
`Frac`: compute `new_gcd = std::gcd(new_num, new_den)` and divide both
components by it unless it is zero (the C++ local `new_gcd` is inlined). -/
def Frac.reduce (n d : Int) : Frac :=
  if (Int.gcd n d : Int) ≠ 0 then ⟨n / Int.gcd n d, d / Int.gcd n d⟩
  else ⟨n, d⟩

/-- `Frac::operator+`: cross-multiplied sum, then gcd reduction. -/
def Frac.add (a b : Frac) : Frac :=
  Frac.reduce (a.num * b.den + a.den * b.num) (a.den * b.den)

/-- `Frac::operator-`: cross-multiplied difference, then gcd reduction. -/
def Frac.sub (a b : Frac) : Frac :=
  Frac.reduce (a.num * b.den - a.den * b.num) (a.den * b.den)

/-- `Frac::operator*`: componentwise product, then gcd reduction. -/
def Frac.mul (a b : Frac) : Frac :=
  Frac.reduce (a.num * b.num) (a.den * b.den)

/-- `Frac::operator/`: `new_num = num() * other.den()`, `new_den = den() *
other.num()`, then gcd reduction. -/
def Frac.div (a b : Frac) : Frac :=
  Frac.reduce (a.num * b.den) (a.den * b.num)

/-- `Frac::positive`: `(_num > 0 && _den > 0) || (_num < 0 && _den < 0)`. -/
def Frac.positive (a : Frac) : Bool :=
  (decide (0 < a.num) && decide (0 < a.den)) ||
    (decide (a.num < 0) && decide (a.den < 0))

/-- The rational value a `Frac` denotes, used to state the spec-level
correspondence claims (`ℚ` division by zero yields `0`). -/
def Frac.val (a : Frac) : ℚ :=
  (a.num : ℚ) / (a.den : ℚ)

/-- Embedding of the C++ class `FracPoint2`: a point with `Frac` x/y
components. -/
structure FracPoint2 where
  x : Frac
  y : Frac
deriving DecidableEq

/-- `operator+(FracPoint2, FracPoint2)`: componentwise `Frac` addition. -/
def FracPoint2.add (p q : FracPoint2) : FracPoint2 :=
  ⟨p.x.add q.x, p.y.add q.y⟩

/-- `operator-(FracPoint2, FracPoint2)`: componentwise `Frac` subtraction. -/
def FracPoint2.sub (p q : FracPoint2) : FracPoint2 :=
  ⟨p.x.sub q.x, p.y.sub q.y⟩

/-- `operator*(const Frac &s, const FracPoint2 &p)`: left scalar
multiplication, `{s * p.x(), s * p.y()}`. -/
def FracPoint2.smulLeft (s : Frac) (p : FracPoint2) : FracPoint2 :=
  ⟨s.mul p.x, s.mul p.y⟩

/-- `operator*(const FracPoint2 &p, const Frac &s)`: right scalar
multiplication; the body is also `{s * p.x(), s * p.y()}`. -/
def FracPoint2.smulRight (p : FracPoint2) (s : Frac) : FracPoint2 :=
  ⟨s.mul p.x, s.mul p.y⟩

/-- `operator/(const FracPoint2 &p, const Frac &s)`: componentwise scalar
division. -/
def FracPoint2.sdiv (p : FracPoint2) (s : Frac) : FracPoint2 :=
  ⟨p.x.div s, p.y.div s⟩

/-- The free function `cross`: `p.x() * q.y() - q.x() * p.y()`. -/
def cross (p q : FracPoint2) : Frac :=
  (p.x.mul q.y).sub (q.x.mul p.y)

/-- `Traits::Less_xy_2::operator()`:
`p.x() < q.x() || (p.x() == q.x() && p.y() < q.y())`. -/
def Less_xy_2 (p q : FracPoint2) : Bool :=
  p.x.lt q.x || (p.x.beq q.x && p.y.lt q.y)

/-- `Traits::Left_turn_2::operator()`: `cross(p1 - p0, p2 - p0).positive()`. -/
def Left_turn_2 (p0 p1 p2 : FracPoint2) : Bool :=
  (cross (p1.sub p0) (p2.sub p0)).positive

/-- `Traits::Equal_2::operator()`: `p.x() == q.x() && p.y() == q.y()`. -/
def Equal_2 (p q : FracPoint2) : Bool :=
  p.x.beq q.x && p.y.beq q.y

/-! ### Helper lemmas about the gcd-reduction step -/

/-- When the reduced denominator is non-zero, the gcd branch has run and the
result is fully reduced. -/
theorem Frac.reduce_gcd_eq_one (n d : Int) (h : (Frac.reduce n d).den ≠ 0) :
    Int.gcd (Frac.reduce n d).num (Frac.reduce n d).den = 1 := by
  unfold Frac.reduce at *
  by_cases hg : (Int.gcd n d : Int) ≠ 0
  · rw [if_pos hg] at h ⊢
    exact Int.gcd_div_gcd_div_gcd
      (Nat.pos_of_ne_zero (by exact_mod_cast hg))
  · rw [if_neg hg] at h
    push_neg at hg
    exact absurd (Int.gcd_eq_zero_iff.mp (by exact_mod_cast hg)).2 h

/-- Reducing a zero numerator always yields a zero numerator. -/
theorem Frac.reduce_zero_num (d : Int) : (Frac.reduce 0 d).num = 0 := by
  unfold Frac.reduce
  split
  · exact Int.zero_ediv _
  · rfl

/-- Reducing a pair with equal components yields equal components. -/
theorem Frac.reduce_self (m : Int) :
    (Frac.reduce m m).num = (Frac.reduce m m).den := by
  unfold Frac.reduce
  split <;> rfl

/-- Negating the numerator commutes with the reduction step. -/
theorem Frac.reduce_neg (n d : Int) :
    Frac.reduce (-n) d = ⟨-(Frac.reduce n d).num, (Frac.reduce n d).den⟩ := by
  unfold Frac.reduce
  rw [show Int.gcd (-n) d = Int.gcd n d from Int.neg_gcd]
  split
  · exact congrArg₂ Frac.mk (Int.neg_ediv_of_dvd Int.gcd_dvd_left) rfl
  · rfl

/-- Reducing a pair with zero denominator yields the sign of the numerator
over a zero denominator. -/
theorem Frac.reduce_zero_den (m : Int) :
    Frac.reduce m 0 = ⟨Int.sign m, 0⟩ := by
  unfold Frac.reduce
  rw [show Int.gcd m 0 = m.natAbs from Int.gcd_zero_right m]
  by_cases hm : m = 0
  · subst hm; simp
  · have hna : ((m.natAbs : Int)) ≠ 0 := by simpa using hm
    rw [if_pos hna]
    have habs : (m.natAbs : Int) = |m| := (Int.abs_eq_natAbs m).symm
    refine congrArg₂ Frac.mk ?_ ?_
    · rw [habs, ← Int.sign_eq_ediv_abs]
    · rw [habs]
      exact Int.zero_ediv _

/-! ### Correspondence between `Frac` comparisons and rational values -/

/-- `Frac` equality test is reflexive. -/
theorem Frac.beq_refl (x : Frac) : x.beq x = true := by
  simp [Frac.beq]

/-- For strictly positive denominators, `<` on `Frac` agrees with `<` on the
denoted rationals. -/
theorem Frac.lt_iff_val (a b : Frac) (ha : 0 < a.den) (hb : 0 < b.den) :
    a.lt b = true ↔ a.val < b.val := by
  have ha' : (0 : ℚ) < (a.den : ℚ) := by exact_mod_cast ha
  have hb' : (0 : ℚ) < (b.den : ℚ) := by exact_mod_cast hb
  rw [Frac.lt, decide_eq_true_iff, Frac.val, Frac.val,
    div_lt_div_iff₀ ha' hb']
  constructor
  · intro h; exact_mod_cast h
  · intro h; exact_mod_cast h

/-- For strictly positive denominators, `<=` on `Frac` agrees with `≤` on the
denoted rationals. -/
theorem Frac.le_iff_val (a b : Frac) (ha : 0 < a.den) (hb : 0 < b.den) :
    a.le b = true ↔ a.val ≤ b.val := by
  have ha' : (0 : ℚ) < (a.den : ℚ) := by exact_mod_cast ha
  have hb' : (0 : ℚ) < (b.den : ℚ) := by exact_mod_cast hb
  rw [Frac.le, decide_eq_true_iff, Frac.val, Frac.val,
    div_le_div_iff₀ ha' hb']
  constructor
  · intro h; exact_mod_cast h
  · intro h; exact_mod_cast h

/-- For non-zero denominators, `==` on `Frac` agrees with equality of the
denoted rationals. -/
theorem Frac.beq_iff_val (a b : Frac) (ha : a.den ≠ 0) (hb : b.den ≠ 0) :
    a.beq b = true ↔ a.val = b.val := by
  have ha' : ((a.den : ℚ)) ≠ 0 := by exact_mod_cast ha
  have hb' : ((b.den : ℚ)) ≠ 0 := by exact_mod_cast hb
  rw [Frac.beq, decide_eq_true_iff, Frac.val, Frac.val,
    div_eq_div_iff ha' hb']
  constructor
  · intro h; exact_mod_cast h
  · intro h; exact_mod_cast h

/-- `positive()` holds exactly when the denoted rational is strictly
positive (no hypothesis on the denominator is needed: a zero denominator
denotes the rational `0`). -/
theorem Frac.positive_iff_val (a : Frac) :
    a.positive = true ↔ 0 < a.val := by
  rw [Frac.val, div_pos_iff, Frac.positive]
  simp only [Bool.or_eq_true, Bool.and_eq_true, decide_eq_true_iff]
  constructor
  · rintro (⟨h1, h2⟩ | ⟨h1, h2⟩)
    · exact Or.inl ⟨by exact_mod_cast h1, by exact_mod_cast h2⟩
    · exact Or.inr ⟨by exact_mod_cast h1, by exact_mod_cast h2⟩
  · rintro (⟨h1, h2⟩ | ⟨h1, h2⟩)
    · exact Or.inl ⟨by exact_mod_cast h1, by exact_mod_cast h2⟩
    · exact Or.inr ⟨by exact_mod_cast h1, by exact_mod_cast h2⟩

/-! ### Claim theorems -/

/-- Claim C9: left and right scalar multiplication of a `FracPoint2` by a
`Frac` produce representation-identical results: both are computed
componentwise as `{s * p.x(), s * p.y()}`. -/
theorem smul_left_right_agree (s : Frac) (p : FracPoint2) :
    p.smulRight s = FracPoint2.smulLeft s p ∧
      p.smulRight s = ⟨s.mul p.x, s.mul p.y⟩ ∧
      FracPoint2.smulLeft s p = ⟨s.mul p.x, s.mul p.y⟩ :=
  ⟨rfl, rfl, rfl⟩

/-- Claim C10: dividing by a `Frac` whose numerator is zero returns normally
and produces a `Frac` with denominator `0`: the result is
`(sign (a.num * b.den), 0)` when `a.num * b.den` is non-zero and `(0, 0)`
when it is zero; the gcd guard only prevents a division by zero inside the
reduction step. -/
theorem frac_div_zero_num (a b : Frac) (hb : b.num = 0) :
    (a.div b).den = 0 ∧
      (a.num * b.den ≠ 0 → a.div b = ⟨Int.sign (a.num * b.den), 0⟩) ∧
      (a.num * b.den = 0 → a.div b = ⟨0, 0⟩) := by
  have hdiv : a.div b = Frac.reduce (a.num * b.den) 0 := by
    rw [Frac.div, hb, mul_zero]
  rw [hdiv, Frac.reduce_zero_den]
  refine ⟨rfl, fun _ => rfl, fun h => ?_⟩
  rw [h]
  rfl

/-- Witness for claim C10 at `a = 1/1, b = 0/5` and `a = 0/1, b = 0/5`. -/
theorem frac_div_zero_num_witness :
    (Frac.div ⟨1, 1⟩ ⟨0, 5⟩).den = 0 ∧
      Frac.div ⟨1, 1⟩ ⟨0, 5⟩ = ⟨1, 0⟩ ∧
      Frac.div ⟨0, 1⟩ ⟨0, 5⟩ = ⟨0, 0⟩ := by
  refine ⟨(frac_div_zero_num ⟨1, 1⟩ ⟨0, 5⟩ rfl).1, ?_, ?_⟩
  · have h := (frac_div_zero_num ⟨1, 1⟩ ⟨0, 5⟩ rfl).2.1 (by decide)
    rw [h]
    decide
  · exact (frac_div_zero_num ⟨0, 1⟩ ⟨0, 5⟩ rfl).2.2 (by decide)

/-- Claim C6: for every `Frac` `a`, `a - a == 0` (the `Frac` `0/1`), and when
the numerator of `a` is non-zero, `a / a == 1` (the `Frac` `1/1`), where
`==` is the cross-multiplication equality operator of `Frac`. -/
theorem frac_sub_self_div_self (a : Frac) :
    (a.sub a).beq ⟨0, 1⟩ = true ∧
      (a.num ≠ 0 → (a.div a).beq ⟨1, 1⟩ = true) := by
  constructor
  · have hs : a.sub a = Frac.reduce 0 (a.den * a.den) := by
      rw [Frac.sub]; congr 1; ring
    rw [hs]
    simp [Frac.beq, Frac.reduce_zero_num]
  · intro _
    have hd : a.div a = Frac.reduce (a.num * a.den) (a.num * a.den) := by
      rw [Frac.div]; congr 1; ring
    rw [hd]
    simp [Frac.beq]
    exact Frac.reduce_self _

/-- Witness for claim C6 at `a = 2/3`. -/
theorem frac_sub_self_div_self_witness :
    (Frac.sub ⟨2, 3⟩ ⟨2, 3⟩).beq ⟨0, 1⟩ = true ∧
      (Frac.div ⟨2, 3⟩ ⟨2, 3⟩).beq ⟨1, 1⟩ = true :=
  ⟨(frac_sub_self_div_self ⟨2, 3⟩).1,
    (frac_sub_self_div_self ⟨2, 3⟩).2 (by decide)⟩

/-- Claim C5: for `Frac` values with strictly positive denominators, addition
and multiplication are commutative up to the `Frac` equality operator. -/
theorem frac_add_mul_comm (a b : Frac) (ha : 0 < a.den) (hb : 0 < b.den) :
    (a.add b).beq (b.add a) = true ∧ (a.mul b).beq (b.mul a) = true := by
  have hadd : a.add b = b.add a := by
    rw [Frac.add, Frac.add]; congr 1 <;> ring
  have hmul : a.mul b = b.mul a := by
    rw [Frac.mul, Frac.mul]; congr 1 <;> ring
  rw [hadd, hmul]
  exact ⟨Frac.beq_refl _, Frac.beq_refl _⟩

/-- Witness for claim C5 at `a = 1/2, b = 3/4`. -/
theorem frac_add_mul_comm_witness :
    (Frac.add ⟨1, 2⟩ ⟨3, 4⟩).beq (Frac.add ⟨3, 4⟩ ⟨1, 2⟩) = true ∧
      (Frac.mul ⟨1, 2⟩ ⟨3, 4⟩).beq (Frac.mul ⟨3, 4⟩ ⟨1, 2⟩) = true :=
  frac_add_mul_comm ⟨1, 2⟩ ⟨3, 4⟩ (by decide) (by decide)
/-- Claim C1: each comparison operator of `Frac` returns the result of the
cross-multiplication test `a.num * b.den OP b.num * a.den`, and for strictly
positive denominators each operator returns `true` exactly when the
corresponding comparison holds between the denoted rational values. -/
theorem frac_cmp_cross_mult (a b : Frac) (ha : 0 < a.den) (hb : 0 < b.den) :
    (a.lt b = decide (a.num * b.den < b.num * a.den) ∧
     a.le b = decide (a.num * b.den ≤ b.num * a.den) ∧
     a.gt b = decide (b.num * a.den < a.num * b.den) ∧
     a.ge b = decide (b.num * a.den ≤ a.num * b.den) ∧
     a.beq b = decide (a.num * b.den = b.num * a.den)) ∧
    ((a.lt b = true ↔ a.val < b.val) ∧
     (a.le b = true ↔ a.val ≤ b.val) ∧
     (a.gt b = true ↔ b.val < a.val) ∧
     (a.ge b = true ↔ b.val ≤ a.val) ∧
     (a.beq b = true ↔ a.val = b.val)) := by
  refine ⟨⟨rfl, rfl, rfl, rfl, rfl⟩, ?_, ?_, ?_, ?_, ?_⟩
  · exact Frac.lt_iff_val a b ha hb
  · exact Frac.le_iff_val a b ha hb
  · exact Frac.lt_iff_val b a hb ha
  · exact Frac.le_iff_val b a hb ha
  · exact Frac.beq_iff_val a b (ne_of_gt ha) (ne_of_gt hb)

/-- Witness for claim C1 at `a = 1/2, b = 2/3`. -/
theorem frac_cmp_cross_mult_witness :
    (Frac.lt ⟨1, 2⟩ ⟨2, 3⟩ = true ↔
        Frac.val ⟨1, 2⟩ < Frac.val ⟨2, 3⟩) ∧
      Frac.ge ⟨1, 2⟩ ⟨2, 3⟩ =
        decide ((2 : Int) * 2 ≤ 1 * 3) :=
  ⟨(frac_cmp_cross_mult ⟨1, 2⟩ ⟨2, 3⟩ (by decide) (by decide)).2.1,
    (frac_cmp_cross_mult ⟨1, 2⟩ ⟨2, 3⟩ (by decide) (by decide)).1.2.2.2.1⟩

/-- Claim C4: `positive()` returns true iff numerator and denominator have
the same strict sign; a zero numerator is never positive; and for every
non-zero denominator (of either sign) the result agrees with the denoted
rational being strictly greater than zero. -/
theorem frac_positive_sign (a : Frac) :
    (a.positive = true ↔
      ((0 < a.num ∧ 0 < a.den) ∨ (a.num < 0 ∧ a.den < 0))) ∧
    (a.num = 0 → a.positive = false) ∧
    (a.den ≠ 0 → (a.positive = true ↔ 0 < a.val)) := by
  refine ⟨?_, ?_, fun _ => Frac.positive_iff_val a⟩
  · simp [Frac.positive]
  · intro h
    simp [Frac.positive, h]

/-- Witness for claim C4 at `a = 0/2` (zero numerator, non-zero
denominator). -/
theorem frac_positive_sign_witness :
    Frac.positive ⟨0, 2⟩ = false ∧
      (Frac.positive ⟨0, 2⟩ = true ↔ 0 < Frac.val ⟨0, 2⟩) :=
  ⟨(frac_positive_sign ⟨0, 2⟩).2.1 rfl,
    (frac_positive_sign ⟨0, 2⟩).2.2 (by decide)⟩
/-- Claim C2: each arithmetic operator reduces its result by the gcd of the
computed numerator and denominator (skipping the division only when that gcd
is zero), so whenever the result's denominator is non-zero and the result is
not a representation of zero, numerator and denominator are coprime. -/
theorem frac_arith_reduced (a b : Frac) (ha : a.den ≠ 0) (hb : b.den ≠ 0) :
    ((a.add b).den ≠ 0 → (a.add b).num ≠ 0 →
        Int.gcd (a.add b).num (a.add b).den = 1) ∧
    ((a.sub b).den ≠ 0 → (a.sub b).num ≠ 0 →
        Int.gcd (a.sub b).num (a.sub b).den = 1) ∧
    ((a.mul b).den ≠ 0 → (a.mul b).num ≠ 0 →
        Int.gcd (a.mul b).num (a.mul b).den = 1) ∧
    ((a.div b).den ≠ 0 → (a.div b).num ≠ 0 →
        Int.gcd (a.div b).num (a.div b).den = 1) ∧
    (∀ n d : Int, (Int.gcd n d : Int) ≠ 0 →
        Frac.reduce n d = ⟨n / Int.gcd n d, d / Int.gcd n d⟩) ∧
    (∀ n d : Int, (Int.gcd n d : Int) = 0 → Frac.reduce n d = ⟨n, d⟩) := by
  refine ⟨?_, ?_, ?_, ?_, fun n d hg => if_pos hg, fun n d hg => if_neg (by
    simpa using hg)⟩
  · intro h _
    rw [Frac.add] at h ⊢
    exact Frac.reduce_gcd_eq_one _ _ h
  · intro h _
    rw [Frac.sub] at h ⊢
    exact Frac.reduce_gcd_eq_one _ _ h
  · intro h _
    rw [Frac.mul] at h ⊢
    exact Frac.reduce_gcd_eq_one _ _ h
  · intro h _
    rw [Frac.div] at h ⊢
    exact Frac.reduce_gcd_eq_one _ _ h

/-- Witness for claim C2 at `a = 1/2, b = 1/3` (all four results have
non-zero numerator and denominator). -/
theorem frac_arith_reduced_witness :
    Int.gcd (Frac.add ⟨1, 2⟩ ⟨1, 3⟩).num (Frac.add ⟨1, 2⟩ ⟨1, 3⟩).den = 1 ∧
    Int.gcd (Frac.sub ⟨1, 2⟩ ⟨1, 3⟩).num (Frac.sub ⟨1, 2⟩ ⟨1, 3⟩).den = 1 ∧
    Int.gcd (Frac.mul ⟨1, 2⟩ ⟨1, 3⟩).num (Frac.mul ⟨1, 2⟩ ⟨1, 3⟩).den = 1 ∧
    Int.gcd (Frac.div ⟨1, 2⟩ ⟨1, 3⟩).num (Frac.div ⟨1, 2⟩ ⟨1, 3⟩).den = 1 :=
  ⟨(frac_arith_reduced ⟨1, 2⟩ ⟨1, 3⟩ (by decide) (by decide)).1
      (by decide) (by decide),
    (frac_arith_reduced ⟨1, 2⟩ ⟨1, 3⟩ (by decide) (by decide)).2.1
      (by decide) (by decide),
    (frac_arith_reduced ⟨1, 2⟩ ⟨1, 3⟩ (by decide) (by decide)).2.2.1
      (by decide) (by decide),
    (frac_arith_reduced ⟨1, 2⟩ ⟨1, 3⟩ (by decide) (by decide)).2.2.2.1
      (by decide) (by decide)⟩

/-- Swapping the arguments of `cross` negates the computed numerator and
keeps the computed denominator. -/
theorem cross_swap (p q : FracPoint2) :
    cross q p = ⟨-(cross p q).num, (cross p q).den⟩ := by
  rw [cross, cross, Frac.sub, Frac.sub]
  rw [show (q.x.mul p.y).num * (p.x.mul q.y).den -
      (q.x.mul p.y).den * (p.x.mul q.y).num =
      -((p.x.mul q.y).num * (q.x.mul p.y).den -
        (p.x.mul q.y).den * (q.x.mul p.y).num) from by ring,
    show (q.x.mul p.y).den * (p.x.mul q.y).den =
      (p.x.mul q.y).den * (q.x.mul p.y).den from mul_comm _ _]
  exact Frac.reduce_neg _ _

/-- A `Frac` and the `Frac` with negated numerator are never both
`positive()`. -/
theorem Frac.positive_neg_num (n d : Int)
    (h : Frac.positive ⟨n, d⟩ = true) :
    Frac.positive ⟨-n, d⟩ = false := by
  simp [Frac.positive] at h ⊢
  omega

/-- Claim C3: for a triple whose turn value `cross(p1 - p0, p2 - p0)` is
non-zero as a rational, if `Left_turn_2 p0 p1 p2` holds then
`Left_turn_2 p0 p2 p1` does not. -/
theorem left_turn_antisym (p0 p1 p2 : FracPoint2)
    (hnc : (cross (p1.sub p0) (p2.sub p0)).val ≠ 0)
    (hl : Left_turn_2 p0 p1 p2 = true) :
    Left_turn_2 p0 p2 p1 = false := by
  rw [Left_turn_2] at hl ⊢
  rw [cross_swap (p1.sub p0) (p2.sub p0)]
  exact Frac.positive_neg_num _ _ hl

/-- Witness for claim C3 at `p0 = (0,0), p1 = (1,0), p2 = (0,1)` (turn value
`1`, a left turn). -/
theorem left_turn_antisym_witness :
    Left_turn_2 ⟨⟨0, 1⟩, ⟨0, 1⟩⟩ ⟨⟨0, 1⟩, ⟨1, 1⟩⟩ ⟨⟨1, 1⟩, ⟨0, 1⟩⟩ = false :=
  left_turn_antisym ⟨⟨0, 1⟩, ⟨0, 1⟩⟩ ⟨⟨1, 1⟩, ⟨0, 1⟩⟩ ⟨⟨0, 1⟩, ⟨1, 1⟩⟩
    (by
      rw [show cross
          (FracPoint2.sub ⟨⟨1, 1⟩, ⟨0, 1⟩⟩ ⟨⟨0, 1⟩, ⟨0, 1⟩⟩)
          (FracPoint2.sub ⟨⟨0, 1⟩, ⟨1, 1⟩⟩ ⟨⟨0, 1⟩, ⟨0, 1⟩⟩) =
          (⟨1, 1⟩ : Frac) from by decide]
      simp [Frac.val])
    (by decide)
/-- Claim C8: `Equal_2` holds exactly when both coordinates are equal under
the `Frac` cross-multiplication equality; in particular it identifies points
whose coordinates are different representations of the same rational value,
such as `1/2` versus `2/4`, which are structurally distinct pairs. -/
theorem equal2_componentwise :
    (∀ p q : FracPoint2,
        Equal_2 p q = true ↔ (p.x.beq q.x = true ∧ p.y.beq q.y = true)) ∧
      Equal_2 ⟨⟨1, 2⟩, ⟨1, 2⟩⟩ ⟨⟨2, 4⟩, ⟨2, 4⟩⟩ = true ∧
      (⟨⟨1, 2⟩, ⟨1, 2⟩⟩ : FracPoint2) ≠ ⟨⟨2, 4⟩, ⟨2, 4⟩⟩ :=
  ⟨fun p q => by rw [Equal_2, Bool.and_eq_true], by decide, by decide⟩

/-- A boolean is `false` when a propositional characterization of its truth
fails. -/
theorem bool_eq_false {b : Bool} {P : Prop} (h : b = true ↔ P) (hn : ¬P) :
    b = false := by
  cases hb : b
  · rfl
  · exact absurd (h.mp hb) hn

/-- For strictly positive coordinate denominators, `Less_xy_2` is the
lexicographic order on the denoted rational coordinates. -/
theorem less_xy_iff_val (p q : FracPoint2)
    (hpx : 0 < p.x.den) (hpy : 0 < p.y.den)
    (hqx : 0 < q.x.den) (hqy : 0 < q.y.den) :
    Less_xy_2 p q = true ↔
      (p.x.val < q.x.val ∨ (p.x.val = q.x.val ∧ p.y.val < q.y.val)) := by
  rw [Less_xy_2, Bool.or_eq_true, Bool.and_eq_true,
    Frac.lt_iff_val _ _ hpx hqx,
    Frac.beq_iff_val _ _ (ne_of_gt hpx) (ne_of_gt hqx),
    Frac.lt_iff_val _ _ hpy hqy]

/-- For non-zero coordinate denominators, `Equal_2` is equality of the
denoted rational coordinates. -/
theorem equal2_iff_val (p q : FracPoint2)
    (hpx : p.x.den ≠ 0) (hpy : p.y.den ≠ 0)
    (hqx : q.x.den ≠ 0) (hqy : q.y.den ≠ 0) :
    Equal_2 p q = true ↔ (p.x.val = q.x.val ∧ p.y.val = q.y.val) := by
  rw [Equal_2, Bool.and_eq_true, Frac.beq_iff_val _ _ hpx hqx,
    Frac.beq_iff_val _ _ hpy hqy]

/-- Counterexample to claim C7 as stated: on arbitrary points `Less_xy_2`
is not transitive (a negative coordinate denominator reverses the
cross-multiplication test), so it is not a strict total order on all
points. -/
theorem less_xy_not_transitive :
    Less_xy_2 ⟨⟨1, 1⟩, ⟨0, 1⟩⟩ ⟨⟨0, -1⟩, ⟨0, 1⟩⟩ = true ∧
      Less_xy_2 ⟨⟨0, -1⟩, ⟨0, 1⟩⟩ ⟨⟨-1, 1⟩, ⟨0, 1⟩⟩ = true ∧
      Less_xy_2 ⟨⟨1, 1⟩, ⟨0, 1⟩⟩ ⟨⟨-1, 1⟩, ⟨0, 1⟩⟩ = false := by
  decide

/-- Claim C7 (amended): `Less_xy_2` compares points lexicographically by x
then y, and on points whose coordinate denominators are strictly positive it
is a strict total order: irreflexive, transitive, and for any two points
exactly one of `Less_xy_2 p q`, `Less_xy_2 q p`, `Equal_2 p q` holds. -/
theorem less_xy_strict_total_order (p q r : FracPoint2)
    (hpx : 0 < p.x.den) (hpy : 0 < p.y.den)
    (hqx : 0 < q.x.den) (hqy : 0 < q.y.den)
    (hrx : 0 < r.x.den) (hry : 0 < r.y.den) :
    (Less_xy_2 p q = true ↔
      (p.x.lt q.x = true ∨ (p.x.beq q.x = true ∧ p.y.lt q.y = true))) ∧
    Less_xy_2 p p = false ∧
    (Less_xy_2 p q = true → Less_xy_2 q r = true → Less_xy_2 p r = true) ∧
    ((Less_xy_2 p q = true ∧ Less_xy_2 q p = false ∧ Equal_2 p q = false) ∨
     (Less_xy_2 p q = false ∧ Less_xy_2 q p = true ∧ Equal_2 p q = false) ∨
     (Less_xy_2 p q = false ∧ Less_xy_2 q p = false ∧
        Equal_2 p q = true)) := by
  have Lpq := less_xy_iff_val p q hpx hpy hqx hqy
  have Lqp := less_xy_iff_val q p hqx hqy hpx hpy
  have Lpr := less_xy_iff_val p r hpx hpy hrx hry
  have Lqr := less_xy_iff_val q r hqx hqy hrx hry
  have Lpp := less_xy_iff_val p p hpx hpy hpx hpy
  have Epq := equal2_iff_val p q (ne_of_gt hpx) (ne_of_gt hpy)
    (ne_of_gt hqx) (ne_of_gt hqy)
  refine ⟨by simp [Less_xy_2], ?_, ?_, ?_⟩
  · refine bool_eq_false Lpp ?_
    rintro (h | ⟨-, h⟩) <;> exact lt_irrefl _ h
  · intro h1 h2
    rw [Lpq] at h1
    rw [Lqr] at h2
    rw [Lpr]
    rcases h1 with h1 | ⟨h1e, h1y⟩ <;> rcases h2 with h2 | ⟨h2e, h2y⟩
    · exact Or.inl (lt_trans h1 h2)
    · exact Or.inl (lt_of_lt_of_le h1 (le_of_eq h2e))
    · exact Or.inl (lt_of_le_of_lt (le_of_eq h1e) h2)
    · exact Or.inr ⟨h1e.trans h2e, lt_trans h1y h2y⟩
  · rcases lt_trichotomy p.x.val q.x.val with hx | hx | hx
    · refine Or.inl ⟨Lpq.mpr (Or.inl hx), ?_, ?_⟩
      · refine bool_eq_false Lqp ?_
        rintro (h | ⟨h1, -⟩)
        · exact lt_asymm hx h
        · exact absurd h1 (ne_of_gt hx)
      · refine bool_eq_false Epq ?_
        rintro ⟨h1, -⟩
        exact absurd h1 (ne_of_lt hx)
    · rcases lt_trichotomy p.y.val q.y.val with hy | hy | hy
      · refine Or.inl ⟨Lpq.mpr (Or.inr ⟨hx, hy⟩), ?_, ?_⟩
        · refine bool_eq_false Lqp ?_
          rintro (h | ⟨-, h2⟩)
          · exact absurd hx.symm (ne_of_lt h)
          · exact lt_asymm hy h2
        · refine bool_eq_false Epq ?_
          rintro ⟨-, h2⟩
          exact absurd h2 (ne_of_lt hy)
      · refine Or.inr (Or.inr ⟨?_, ?_, Epq.mpr ⟨hx, hy⟩⟩)
        · refine bool_eq_false Lpq ?_
          rintro (h | ⟨-, h2⟩)
          · exact absurd hx (ne_of_lt h)
          · exact absurd hy (ne_of_lt h2)
        · refine bool_eq_false Lqp ?_
          rintro (h | ⟨-, h2⟩)
          · exact absurd hx.symm (ne_of_lt h)
          · exact absurd hy.symm (ne_of_lt h2)
      · refine Or.inr (Or.inl ⟨?_, Lqp.mpr (Or.inr ⟨hx.symm, hy⟩), ?_⟩)
        · refine bool_eq_false Lpq ?_
          rintro (h | ⟨-, h2⟩)
          · exact absurd hx (ne_of_lt h)
          · exact lt_asymm hy h2
        · refine bool_eq_false Epq ?_
          rintro ⟨-, h2⟩
          exact absurd h2.symm (ne_of_lt hy)
    · refine Or.inr (Or.inl ⟨?_, Lqp.mpr (Or.inl hx), ?_⟩)
      · refine bool_eq_false Lpq ?_
        rintro (h | ⟨h1, -⟩)
        · exact lt_asymm hx h
        · exact absurd h1.symm (ne_of_lt hx)
      · refine bool_eq_false Epq ?_
        rintro ⟨h1, -⟩
        exact absurd h1.symm (ne_of_lt hx)

/-- Witness for amended claim C7 at `p = (1/2, 0), q = (1/1, 0),
r = (3/2, 0)`: irreflexivity at `p` and transitivity across the chain
`p < q < r`. -/
theorem less_xy_strict_total_order_witness :
    Less_xy_2 ⟨⟨1, 2⟩, ⟨0, 1⟩⟩ ⟨⟨1, 2⟩, ⟨0, 1⟩⟩ = false ∧
      Less_xy_2 ⟨⟨1, 2⟩, ⟨0, 1⟩⟩ ⟨⟨3, 2⟩, ⟨0, 1⟩⟩ = true :=
  ⟨(less_xy_strict_total_order ⟨⟨1, 2⟩, ⟨0, 1⟩⟩ ⟨⟨1, 2⟩, ⟨0, 1⟩⟩
      ⟨⟨1, 2⟩, ⟨0, 1⟩⟩ (by decide) (by decide) (by decide) (by decide)
      (by decide) (by decide)).2.1,
    (less_xy_strict_total_order ⟨⟨1, 2⟩, ⟨0, 1⟩⟩ ⟨⟨1, 1⟩, ⟨0, 1⟩⟩
      ⟨⟨3, 2⟩, ⟨0, 1⟩⟩ (by decide) (by decide) (by decide) (by decide)
      (by decide) (by decide)).2.2.1 (by decide) (by decide)⟩
